import Mathlib

/-!
Verification of the Scrape-By-Country scraper (src/scraper.py) against its
natural-language specification.  The Python code is shallowly embedded:
strings are `List Char`, Python dicts are insertion-ordered association
lists, Python sets are duplicate-free lists with insertion-order append,
and fallible code returns `Option`/`Except`.  Foreign library calls with
data-dependent behaviour that the claims do not fix (user-supplied
`re.compile` patterns) are abstracted as an explicit oracle parameter;
everything else is translated directly from the source.
-/

/-- Python strings are modelled as lists of characters. -/
abbrev Str := List Char

/-- Turn a Lean string literal into the model type. -/
def toL (s : String) : Str := s.data

/-- Whitespace characters recognised by Python str.strip for ASCII input. -/
def isPyWs (c : Char) : Bool :=
  c = ' ' || c = '\t' || c = '\n' || c = '\r' || c = '\x0b' || c = '\x0c'

/-- Python str.strip(): drop leading and trailing whitespace. -/
def pyStrip (s : Str) : Str :=
  ((s.dropWhile isPyWs).reverse.dropWhile isPyWs).reverse

/-- Python str.lower() restricted to ASCII (all inputs in the claims are ASCII). -/
def pyLower (s : Str) : Str := s.map Char.toLower

/-- Python membership test sub in s: contiguous-substring containment. -/
def isSub (sub s : Str) : Bool :=
  (List.range (s.length + 1)).any (fun i => List.isPrefixOf sub (s.drop i))

/-- Fuelled scanner for countSubstr (fuel bounds the text length). -/
def countSubstrGo (sub : Str) (fuel : Nat) (s : Str) : Nat :=
  match fuel with
  | 0 => 0
  | fuel + 1 =>
    match s with
    | [] => 0
    | c :: cs =>
      if List.isPrefixOf sub (c :: cs) ∧ sub ≠ [] then
        countSubstrGo sub fuel (List.drop (sub.length - 1) cs) + 1
      else
        countSubstrGo sub fuel cs

/-- Python str.count(sub): number of non-overlapping occurrences, left to right. -/
def countSubstr (sub : Str) (s : Str) : Nat := countSubstrGo sub (s.length + 1) s

/-- Python set.add modelled on lists: append if absent (keeps sets duplicate-free). -/
def setInsert (x : Str) (s : List Str) : List Str :=
  if s.contains x then s else s ++ [x]

/-- Python set.update: insert each element of the second list. -/
def setUnion (s : List Str) (add : List Str) : List Str :=
  add.foldl (fun acc x => setInsert x acc) s

/-- Dict lookup on an association list (keys are unique in a Python dict). -/
def lookupA (k : Str) : List (Str × α) → Option α
  | [] => none
  | (k', v) :: rest => if k' = k then some v else lookupA k rest

/-- Dict lookup with a default value. -/
def lookupD (k : Str) (l : List (Str × List Str)) : List Str :=
  (lookupA k l).getD []

/-- Does the dict contain the key? -/
def containsKey (l : List (Str × α)) (k : Str) : Bool :=
  l.any (fun e => e.1 = k)

/-- Update the value stored at an existing key (no-op when the key is absent). -/
def updateA (k : Str) (f : α → α) : List (Str × α) → List (Str × α)
  | [] => []
  | (k', v) :: rest => if k' = k then (k', f v) :: rest else (k', v) :: updateA k f rest

/-- dict[k] = union of old set with new elements, inserting the key at the end
when it is new (Python dict insertion order). -/
def unionInsert (k : Str) (q : List Str) (m : List (Str × List Str)) :
    List (Str × List Str) :=
  if containsKey m k then updateA k (fun s => setUnion s q) m
  else m ++ [(k, setUnion [] q)]

/-- Fuelled first-occurrence deduplication (fuel bounds the list length). -/
def dedupKeepFirstGo (fuel : Nat) (l : List Str) : List Str :=
  match fuel with
  | 0 => []
  | fuel + 1 =>
    match l with
    | [] => []
    | x :: xs => x :: dedupKeepFirstGo fuel (xs.filter (fun y => y ≠ x))

/-- Keep the first occurrence of each element (Python if kw not in list: append). -/
def dedupKeepFirst (l : List Str) : List Str := dedupKeepFirstGo (l.length + 1) l

/-- re.split of a non-alphabetic character class: pieces between non-letter
characters, empty pieces included, exactly as Python re.split produces them. -/
def splitNonAlpha : Str → List Str
  | [] => [[]]
  | c :: cs =>
    if c.isAlpha then
      match splitNonAlpha cs with
      | [] => [[c]]
      | t :: ts => (c :: t) :: ts
    else
      [] :: splitNonAlpha cs

/-- Python s.split(sep, 1)[1] for a single character: everything after the first
occurrence (caller guarantees the character occurs). -/
def afterFirst (sep : Char) : Str → Str
  | [] => []
  | c :: cs => if c = sep then cs else afterFirst sep cs

/-- Python s.split(sep) for a single-character separator. -/
def splitChar (sep : Char) : Str → List Str
  | [] => [[]]
  | c :: cs =>
    if c = sep then
      [] :: splitChar sep cs
    else
      match splitChar sep cs with
      | [] => [[c]]
      | t :: ts => (c :: t) :: ts

/-- Python s.split('=', 1): split at the first occurrence only. -/
def splitOnceChar (sep : Char) : Str → Option (Str × Str)
  | [] => none
  | c :: cs =>
    if c = sep then some ([], cs)
    else (splitOnceChar sep cs).map (fun p => (c :: p.1, p.2))

/-- Python s.split(sep) for a multi-character separator (fuelled scanner). -/
def splitOnListGo (sep : Str) (fuel : Nat) (s : Str) : List Str :=
  match fuel with
  | 0 => [s]
  | fuel + 1 =>
    match s with
    | [] => [[]]
    | c :: cs =>
      if List.isPrefixOf sep (c :: cs) ∧ sep ≠ [] then
        [] :: splitOnListGo sep fuel (List.drop sep.length (c :: cs))
      else
        match splitOnListGo sep fuel cs with
        | [] => [[c]]
        | t :: ts => (c :: t) :: ts

/-- Python s.split(sep) for a multi-character separator. -/
def splitOnList (sep : Str) (s : Str) : List Str :=
  splitOnListGo sep (s.length + 1) s

/-- Hexadecimal digit value, as accepted by urllib percent-escapes. -/
def hexVal (c : Char) : Option Nat :=
  if '0' ≤ c ∧ c ≤ '9' then some (c.toNat - '0'.toNat)
  else if 'a' ≤ c ∧ c ≤ 'f' then some (c.toNat - 'a'.toNat + 10)
  else if 'A' ≤ c ∧ c ≤ 'F' then some (c.toNat - 'A'.toNat + 10)
  else none

/-- UTF-8 encoding of one character (all claim inputs are ASCII, but the model
covers the full range used by Python str.encode). -/
def utf8Bytes (c : Char) : List Nat :=
  let n := c.toNat
  if n < 0x80 then [n]
  else if n < 0x800 then [0xC0 + n / 64, 0x80 + n % 64]
  else if n < 0x10000 then [0xE0 + n / 4096, 0x80 + (n / 64) % 64, 0x80 + n % 64]
  else [0xF0 + n / 262144, 0x80 + (n / 4096) % 64, 0x80 + (n / 64) % 64, 0x80 + n % 64]

/-- Strict UTF-8 decoding of a byte list (Python bytes.decode of utf-8);
rejects malformed sequences, overlong forms and surrogates. -/
def utf8Decode : List Nat → Option Str
  | [] => some []
  | b :: bs =>
    if b < 0x80 then
      (utf8Decode bs).map (fun r => Char.ofNat b :: r)
    else if 0xC2 ≤ b ∧ b ≤ 0xDF then
      match bs with
      | b2 :: rest =>
        if 0x80 ≤ b2 ∧ b2 ≤ 0xBF then
          (utf8Decode rest).map (fun r => Char.ofNat ((b - 0xC0) * 64 + (b2 - 0x80)) :: r)
        else none
      | _ => none
    else if 0xE0 ≤ b ∧ b ≤ 0xEF then
      match bs with
      | b2 :: b3 :: rest =>
        let lo2 := if b = 0xE0 then 0xA0 else 0x80
        let hi2 := if b = 0xED then 0x9F else 0xBF
        if (lo2 ≤ b2 ∧ b2 ≤ hi2) ∧ (0x80 ≤ b3 ∧ b3 ≤ 0xBF) then
          (utf8Decode rest).map
            (fun r => Char.ofNat ((b - 0xE0) * 4096 + (b2 - 0x80) * 64 + (b3 - 0x80)) :: r)
        else none
      | _ => none
    else if 0xF0 ≤ b ∧ b ≤ 0xF4 then
      match bs with
      | b2 :: b3 :: b4 :: rest =>
        let lo2 := if b = 0xF0 then 0x90 else 0x80
        let hi2 := if b = 0xF4 then 0x8F else 0xBF
        if (lo2 ≤ b2 ∧ b2 ≤ hi2) ∧ (0x80 ≤ b3 ∧ b3 ≤ 0xBF) ∧ (0x80 ≤ b4 ∧ b4 ≤ 0xBF) then
          (utf8Decode rest).map
            (fun r =>
              Char.ofNat ((b - 0xF0) * 262144 + (b2 - 0x80) * 4096 +
                (b3 - 0x80) * 64 + (b4 - 0x80)) :: r)
        else none
      | _ => none
    else none

/-- UTF-8 decoding with errors=ignore: malformed bytes are skipped. -/
def utf8DecodeIgnore (fuel : Nat) (l : List Nat) : Str :=
  match fuel with
  | 0 => []
  | fuel + 1 =>
    match l with
    | [] => []
    | b :: bs =>
      if b < 0x80 then Char.ofNat b :: utf8DecodeIgnore fuel bs
      else
        match bs with
        | b2 :: rest =>
          if (0xC2 ≤ b ∧ b ≤ 0xDF) ∧ (0x80 ≤ b2 ∧ b2 ≤ 0xBF) then
            Char.ofNat ((b - 0xC0) * 64 + (b2 - 0x80)) :: utf8DecodeIgnore fuel rest
          else utf8DecodeIgnore fuel bs
        | [] => []

/-- UTF-8 decoding with errors=replace: malformed bytes become U+FFFD. -/
def utf8DecodeReplace (fuel : Nat) (l : List Nat) : Str :=
  match fuel with
  | 0 => []
  | fuel + 1 =>
    match l with
    | [] => []
    | b :: bs =>
      if b < 0x80 then Char.ofNat b :: utf8DecodeReplace fuel bs
      else
        match bs with
        | b2 :: rest =>
          if (0xC2 ≤ b ∧ b ≤ 0xDF) ∧ (0x80 ≤ b2 ∧ b2 ≤ 0xBF) then
            Char.ofNat ((b - 0xC0) * 64 + (b2 - 0x80)) :: utf8DecodeReplace fuel rest
          else Char.ofNat 0xFFFD :: utf8DecodeReplace fuel bs
        | [] => [Char.ofNat 0xFFFD]

/-- Collect a maximal run of percent-escapes %XX starting here, returning the
decoded bytes and the remaining input (urllib.parse.unquote groups consecutive
escapes into one byte sequence before UTF-8 decoding them). -/
def pctRun (fuel : Nat) (s : Str) : List Nat × Str :=
  match fuel with
  | 0 => ([], s)
  | fuel + 1 =>
    match s with
    | '%' :: h1 :: h2 :: rest =>
      match hexVal h1, hexVal h2 with
      | some v1, some v2 =>
        let (bs, r) := pctRun fuel rest
        ((v1 * 16 + v2) :: bs, r)
      | _, _ => ([], s)
    | _ => ([], s)

/-- urllib.parse.unquote with errors=replace: decode runs of %XX escapes as
UTF-8, leave malformed escapes untouched. -/
def pyUnquoteGo (fuel : Nat) (s : Str) : Str :=
  match fuel with
  | 0 => s
  | fuel + 1 =>
    match s with
    | [] => []
    | '%' :: rest =>
      let (bs, r) := pctRun (s.length) ('%' :: rest)
      if bs = [] then '%' :: pyUnquoteGo fuel rest
      else utf8DecodeReplace (bs.length + 1) bs ++ pyUnquoteGo fuel r
    | c :: cs => c :: pyUnquoteGo fuel cs

/-- urllib.parse.unquote. -/
def pyUnquote (s : Str) : Str := pyUnquoteGo (s.length + 1) s

/-- urllib.parse.unquote_plus: plus signs become spaces, then unquote. -/
def pyUnquotePlus (s : Str) : Str :=
  pyUnquote (s.map (fun c => if c = '+' then ' ' else c))

/-- Append a value to the list stored under a key of a multidict, creating the
key at the end on first sight (urllib.parse.parse_qs accumulation). -/
def addToMulti (k v : Str) (l : List (Str × List Str)) : List (Str × List Str) :=
  if containsKey l k then updateA k (fun vs => vs ++ [v]) l else l ++ [(k, [v])]

/-- urllib.parse.parse_qs with default settings: split the query on the
ampersand, keep only k=v pairs with a non-empty value, unquote_plus both
sides. -/
def pyParseQs (s : Str) : List (Str × List Str) :=
  (splitChar '&' s).foldl
    (fun acc chunk =>
      if chunk = [] then acc
      else
        match splitOnceChar '=' chunk with
        | none => acc
        | some (k, v) =>
          if v = [] then acc
          else addToMulti (pyUnquotePlus k) (pyUnquotePlus v) acc)
    []

/-- Value of a character in the standard base64 alphabet. -/
def b64Val (c : Char) : Option Nat :=
  if 'A' ≤ c ∧ c ≤ 'Z' then some (c.toNat - 'A'.toNat)
  else if 'a' ≤ c ∧ c ≤ 'z' then some (c.toNat - 'a'.toNat + 26)
  else if '0' ≤ c ∧ c ≤ '9' then some (c.toNat - '0'.toNat + 52)
  else if c = '+' then some 62
  else if c = '/' then some 63
  else none

/-- Character of a 6-bit value in the standard base64 alphabet. -/
def b64Char (n : Nat) : Char :=
  if n < 26 then Char.ofNat ('A'.toNat + n)
  else if n < 52 then Char.ofNat ('a'.toNat + n - 26)
  else if n < 62 then Char.ofNat ('0'.toNat + n - 52)
  else if n = 62 then '+'
  else '/'

/-- Turn a list of 6-bit values into bytes, dropping the final partial byte
exactly as a base64 decoder does (4 values give 3 bytes, a leftover of 3
values gives 2 bytes, a leftover of 2 values gives 1 byte). -/
def b64Quads : List Nat → List Nat
  | v1 :: v2 :: v3 :: v4 :: rest =>
    (v1 * 4 + v2 / 16) :: ((v2 % 16) * 16 + v3 / 4) :: ((v3 % 4) * 64 + v4) ::
      b64Quads rest
  | [v1, v2, v3] => [v1 * 4 + v2 / 16, (v2 % 16) * 16 + v3 / 4]
  | [v1, v2] => [v1 * 4 + v2 / 16]
  | _ => []

/-- base64.b64decode with default validate=False, as CPython implements it:
characters outside the alphabet (including the URL-safe - and _) are
DISCARDED rather than translated, then the remaining data must form complete
quads given the available padding. -/
def pyB64Decode (s : Str) : Option (List Nat) :=
  let kept := s.filter (fun c => (b64Val c).isSome || c = '=')
  let data := kept.filter (fun c => c ≠ '=')
  let pads := kept.length - data.length
  let vals := data.map (fun c => (b64Val c).getD 0)
  if data.length % 4 = 0 then some (b64Quads vals)
  else if data.length % 4 = 2 ∧ 2 ≤ pads then some (b64Quads vals)
  else if data.length % 4 = 3 ∧ 1 ≤ pads then some (b64Quads vals)
  else none

/-- base64.b64decode followed by bytes.decode of utf-8 (strict). -/
def pyB64DecodeStr (s : Str) : Option Str :=
  (pyB64Decode s).bind utf8Decode

/-- Standard base64 encoding of the UTF-8 bytes of a string, with padding. -/
def b64EncodeBytes : List Nat → Str
  | b1 :: b2 :: b3 :: rest =>
    b64Char (b1 / 4) :: b64Char ((b1 % 4) * 16 + b2 / 16) ::
      b64Char ((b2 % 16) * 4 + b3 / 64) :: b64Char (b3 % 64) :: b64EncodeBytes rest
  | [b1, b2] =>
    [b64Char (b1 / 4), b64Char ((b1 % 4) * 16 + b2 / 16), b64Char ((b2 % 16) * 4), '=']
  | [b1] => [b64Char (b1 / 4), b64Char ((b1 % 4) * 16), '=', '=']
  | [] => []

/-- base64.b64encode of a string's UTF-8 bytes. -/
def b64Encode (s : Str) : Str := b64EncodeBytes (s.flatMap utf8Bytes)

/-- base64.urlsafe_b64encode with the padding stripped: plus becomes minus and
slash becomes underscore. -/
def b64EncodeUrlsafeNoPad (s : Str) : Str :=
  ((b64Encode s).map (fun c => if c = '+' then '-' else if c = '/' then '_' else c)).filter
    (fun c => c ≠ '=')

/-- Pad a base64 payload to a multiple of four characters, exactly as
scraper.py does before decoding: s + equals * ((4 - len(s) % 4) % 4). -/
def pad4 (s : Str) : Str := s ++ List.replicate ((4 - s.length % 4) % 4) '='

/-- JSON values as produced by json.loads. -/
inductive JVal where
  | null
  | jbool (b : Bool)
  | num (raw : Str)
  | jstr (s : Str)
  | arr (l : List JVal)
  | obj (fields : List (Str × JVal))

/-- JSON whitespace. -/
def jWs (c : Char) : Bool := c = ' ' || c = '\t' || c = '\n' || c = '\r'

/-- Skip JSON whitespace. -/
def jSkip (s : Str) : Str := s.dropWhile jWs

/-- Four hexadecimal digits of a unicode escape. -/
def parseHex4 : Str → Option (Nat × Str)
  | h1 :: h2 :: h3 :: h4 :: rest =>
    match hexVal h1, hexVal h2, hexVal h3, hexVal h4 with
    | some v1, some v2, some v3, some v4 =>
      some (((v1 * 16 + v2) * 16 + v3) * 16 + v4, rest)
    | _, _, _, _ => none
  | _ => none

/-- Body of a JSON string after the opening quote, with the escapes json.loads
accepts; returns the decoded text and the input after the closing quote. -/
def parseJStrBody (fuel : Nat) (s : Str) : Option (Str × Str) :=
  match fuel with
  | 0 => none
  | fuel + 1 =>
    match s with
    | [] => none
    | '"' :: rest => some ([], rest)
    | '\\' :: e :: rest =>
      if e = 'u' then
        match parseHex4 rest with
        | some (n, rest2) =>
          (parseJStrBody fuel rest2).map (fun p => (Char.ofNat n :: p.1, p.2))
        | none => none
      else
        match
          (if e = '"' then some '"'
           else if e = '\\' then some '\\'
           else if e = '/' then some '/'
           else if e = 'b' then some (Char.ofNat 8)
           else if e = 'f' then some (Char.ofNat 12)
           else if e = 'n' then some '\n'
           else if e = 'r' then some '\r'
           else if e = 't' then some '\t'
           else none) with
        | some c => (parseJStrBody fuel rest).map (fun p => (c :: p.1, p.2))
        | none => none
    | c :: rest =>
      if c.toNat < 0x20 then none
      else (parseJStrBody fuel rest).map (fun p => (c :: p.1, p.2))

/-- JSON number: sign, integer part, optional fraction and exponent; the raw
text is kept (the scraper never uses numeric values). -/
def parseJNumber (s : Str) : Option (Str × Str) :=
  let (sign, s1) :=
    match s with
    | '-' :: rest => ([' '].map (fun _ => '-'), rest)
    | _ => ([], s)
  let intDigits := s1.takeWhile Char.isDigit
  let s2 := s1.dropWhile Char.isDigit
  if intDigits = [] then none
  else if 1 < intDigits.length ∧ intDigits.head? = some '0' then none
  else
    let (frac, s3) :=
      match s2 with
      | '.' :: rest =>
        let ds := rest.takeWhile Char.isDigit
        if ds = [] then ([], s2) else ('.' :: ds, rest.dropWhile Char.isDigit)
      | _ => ([], s2)
    if s2 ≠ s3 ∨ frac = [] then
      let (expPart, s4) :=
        match s3 with
        | e :: rest =>
          if e = 'e' ∨ e = 'E' then
            let (sgn, rest2) :=
              match rest with
              | '+' :: r => (['+'], r)
              | '-' :: r => (['-'], r)
              | _ => ([], rest)
            let ds := rest2.takeWhile Char.isDigit
            if ds = [] then ([], s3)
            else (e :: (sgn ++ ds), rest2.dropWhile Char.isDigit)
          else ([], s3)
        | _ => ([], s3)
      some (sign ++ intDigits ++ frac ++ expPart, s4)
    else none

mutual

/-- One JSON value (recursive descent with fuel). -/
def parseJValue (fuel : Nat) (s : Str) : Option (JVal × Str) :=
  match fuel with
  | 0 => none
  | fuel + 1 =>
    match s with
    | [] => none
    | '"' :: rest => (parseJStrBody (rest.length + 1) rest).map (fun p => (JVal.jstr p.1, p.2))
    | '{' :: rest =>
      let r1 := jSkip rest
      match r1 with
      | '}' :: r2 => some (JVal.obj [], r2)
      | _ => (parseJObjItems fuel r1).map (fun p => (JVal.obj p.1, p.2))
    | '[' :: rest =>
      let r1 := jSkip rest
      match r1 with
      | ']' :: r2 => some (JVal.arr [], r2)
      | _ => (parseJArrItems fuel r1).map (fun p => (JVal.arr p.1, p.2))
    | 't' :: rest =>
      if List.isPrefixOf (toL "rue") rest then some (JVal.jbool true, rest.drop 3) else none
    | 'f' :: rest =>
      if List.isPrefixOf (toL "alse") rest then some (JVal.jbool false, rest.drop 4) else none
    | 'n' :: rest =>
      if List.isPrefixOf (toL "ull") rest then some (JVal.null, rest.drop 3) else none
    | _ => (parseJNumber s).map (fun p => (JVal.num p.1, p.2))

/-- Comma-separated JSON array items up to the closing bracket. -/
def parseJArrItems (fuel : Nat) (s : Str) : Option (List JVal × Str) :=
  match fuel with
  | 0 => none
  | fuel + 1 =>
    match parseJValue fuel s with
    | none => none
    | some (v, rest) =>
      match jSkip rest with
      | ']' :: r2 => some ([v], r2)
      | ',' :: r2 =>
        (parseJArrItems fuel (jSkip r2)).map (fun p => (v :: p.1, p.2))
      | _ => none

/-- Comma-separated JSON object members up to the closing brace. -/
def parseJObjItems (fuel : Nat) (s : Str) : Option (List (Str × JVal) × Str) :=
  match fuel with
  | 0 => none
  | fuel + 1 =>
    match s with
    | '"' :: rest =>
      match parseJStrBody (rest.length + 1) rest with
      | none => none
      | some (k, r1) =>
        match jSkip r1 with
        | ':' :: r2 =>
          match parseJValue fuel (jSkip r2) with
          | none => none
          | some (v, r3) =>
            match jSkip r3 with
            | '}' :: r4 => some ([(k, v)], r4)
            | ',' :: r4 =>
              (parseJObjItems fuel (jSkip r4)).map (fun p => ((k, v) :: p.1, p.2))
            | _ => none
        | _ => none
    | _ => none

end

/-- json.loads: a single JSON value with nothing but whitespace around it. -/
def jsonLoads (s : Str) : Option JVal :=
  match parseJValue (s.length + 1) (jSkip s) with
  | some (v, rest) => if jSkip rest = [] then some v else none
  | none => none

/-- Python dict lookup for an object built by json.loads: duplicate keys keep
the last occurrence. -/
def lookupLast (k : Str) (l : List (Str × JVal)) : Option JVal :=
  lookupA k l.reverse

/-- A Python value as far as the scraper's isinstance checks distinguish it:
either a str or anything else. -/
inductive PyVal where
  | str (s : Str)
  | notStr
deriving DecidableEq

/-- decode_base64 (scraper.py 129-142): translate the URL-safe alphabet, pad,
base64-decode and decode as UTF-8; every failure returns None. -/
def decodeBase64 : PyVal → Option Str
  | .notStr => none
  | .str s =>
    if s.isEmpty then none
    else
      let t := s.map (fun c => if c = '_' then '/' else if c = '-' then '+' else c)
      pyB64DecodeStr (pad4 t)

/-- The ordered label fields searched by get_vmess_name. -/
def vmessNameFields : List Str := [toL "ps", toL "name", toL "remarks", toL "tag"]

/-- First of the given fields that is present in the object with a string
value; its stripped text is the name. -/
def firstStrField (fields : List (Str × JVal)) : List Str → Option Str
  | [] => none
  | f :: fs =>
    match lookupLast f fields with
    | some (JVal.jstr v) => some (pyStrip v)
    | _ => firstStrField fields fs

/-- get_vmess_name (scraper.py 145-187): strip the scheme, base64-decode the
payload (padded; on failure URL-decode and retry), parse JSON and return the
first string-valued label field, stripped. -/
def getVmessName : PyVal → Option Str
  | .notStr => none
  | .str s =>
    if ¬ List.isPrefixOf (toL "vmess://") s then none
    else
      let enc := s.drop 8
      let decoded :=
        match pyB64DecodeStr (pad4 enc) with
        | some d => some d
        | none => pyB64DecodeStr (pad4 (pyUnquote enc))
      match decoded with
      | none => none
      | some d =>
        match jsonLoads d with
        | some (JVal.obj fields) => firstStrField fields vmessNameFields
        | _ => none

/-- get_ssr_name (scraper.py 189-237): decode the payload like vmess, split on
the literal /? separator, base64-decode the remarks query parameter with
errors=ignore. -/
def getSsrName : PyVal → Option Str
  | .notStr => none
  | .str s =>
    if ¬ List.isPrefixOf (toL "ssr://") s then none
    else
      let enc := s.drop 6
      let decoded :=
        match pyB64DecodeStr (pad4 enc) with
        | some d => some d
        | none => pyB64DecodeStr (pad4 (pyUnquote enc))
      match decoded with
      | none => none
      | some d =>
        match splitOnList (toL "/?") d with
        | _ :: p1 :: _ =>
          match (lookupA (toL "remarks") (pyParseQs p1)).bind List.head? with
          | none => none
          | some remEnc =>
            (pyB64Decode (pad4 remEnc)).map
              (fun bs => utf8DecodeIgnore (bs.length + 1) bs)
        | _ => none

/-- The decoded, stripped URL fragment, when a hash sign is present (always
returned by the per-protocol extractors, even when it strips to empty). -/
def fragName (s : Str) : Option Str :=
  if s.contains '#' then some (pyStrip (pyUnquote (afterFirst '#' s))) else none

/-- The ordered query parameters searched for a label. -/
def queryNameKeys : List Str := [toL "name", toL "remarks", toL "ps"]

/-- First of the given keys present in the parsed query parameters. -/
def firstKeyHit (params : List (Str × List Str)) : List Str → Option Str
  | [] => none
  | k :: ks =>
    match (lookupA k params).bind List.head? with
    | some v => some v
    | none => firstKeyHit params ks

/-- Name from the query string between the first and second question mark:
parse_qs, then the first label key, URL-decoded and stripped. -/
def queryName (s : Str) : Option Str :=
  match splitChar '?' s with
  | _ :: p1 :: _ =>
    (firstKeyHit (pyParseQs p1) queryNameKeys).map (fun v => pyStrip (pyUnquote v))
  | _ => none

/-- get_trojan_name (scraper.py 239-274): fragment first, else query label. -/
def getTrojanName : PyVal → Option Str
  | .notStr => none
  | .str s =>
    if ¬ List.isPrefixOf (toL "trojan://") s then none
    else
      match fragName s with
      | some n => some n
      | none => queryName s

/-- get_vless_name (scraper.py 276-310): fragment first, else query label. -/
def getVlessName : PyVal → Option Str
  | .notStr => none
  | .str s =>
    if ¬ List.isPrefixOf (toL "vless://") s then none
    else
      match fragName s with
      | some n => some n
      | none => queryName s

/-- get_shadowsocks_name (scraper.py 312-335): fragment only. -/
def getShadowsocksName : PyVal → Option Str
  | .notStr => none
  | .str s =>
    if ¬ List.isPrefixOf (toL "ss://") s then none
    else
      match fragName s with
      | some n => some n
      | none => none

/-- get_tuic_name (scraper.py 337-371): fragment first, else query label. -/
def getTuicName : PyVal → Option Str
  | .notStr => none
  | .str s =>
    if ¬ List.isPrefixOf (toL "tuic://") s then none
    else
      match fragName s with
      | some n => some n
      | none => queryName s

/-- get_hysteria2_name (scraper.py 373-407): accepts both scheme spellings;
fragment first, else query label. -/
def getHysteria2Name : PyVal → Option Str
  | .notStr => none
  | .str s =>
    if ¬ (List.isPrefixOf (toL "hy2://") s ∨ List.isPrefixOf (toL "hysteria2://") s) then none
    else
      match fragName s with
      | some n => some n
      | none => queryName s

/-- get_wireguard_name (scraper.py 409-443): only the wireguard:// spelling is
accepted (wg:// links return None); fragment first, else query label. -/
def getWireguardName : PyVal → Option Str
  | .notStr => none
  | .str s =>
    if ¬ List.isPrefixOf (toL "wireguard://") s then none
    else
      match fragName s with
      | some n => some n
      | none => queryName s

/-- All protocol scheme spellings, in the iteration order of
PROTOCOL_PREFIXES (scraper.py 46-55 flattened at line 478). -/
def protoSchemes : List Str :=
  [toL "vmess://", toL "vless://", toL "trojan://", toL "ss://", toL "ssr://",
   toL "wg://", toL "wireguard://", toL "tuic://", toL "hy2://", toL "hysteria2://"]

/-- Configuration constants (scraper.py 37-43). -/
def MIN_PERCENT25_COUNT : Nat := 15

/-- Maximum accepted config length before doubling (scraper.py 37). -/
def MAX_CONFIG_LENGTH : Nat := 1500

/-- The blocked phrase (scraper.py 39). -/
def FILTERED_PHRASE : Str := toL "i_love_"

/-- The run ceiling on total accepted configs (scraper.py 43). -/
def MAX_TOTAL_CONFIGS : Nat := 100000

/-- Protocol-specific structural validation (scraper.py 491-508), applied to
the ORIGINAL config string; true means the config is filtered out. -/
def protoValidate (pref : Str) (c : Str) : Bool :=
  if pref = toL "vmess://" then (pyStrip (c.drop 8)).isEmpty
  else if pref = toL "vless://" then (pyStrip (c.drop 8)).isEmpty
  else if pref = toL "trojan://" then ¬ c.contains '@'
  else if pref = toL "ss://" then (pyStrip (c.drop 5)).isEmpty
  else if pref = toL "ssr://" then (pyStrip (c.drop 6)).isEmpty
  else if pref = toL "tuic://" then (pyStrip (c.drop 7)).isEmpty
  else if pref = toL "hy2://" then (pyStrip (c.drop 5)).isEmpty
  else if pref = toL "hysteria2://" then (pyStrip (c.drop 12)).isEmpty
  else if pref = toL "wireguard://" then (pyStrip (c.drop 12)).isEmpty
  else if pref = toL "wg://" then (pyStrip (c.drop 5)).isEmpty
  else false

/-- should_filter_config (scraper.py 446-510). -/
def shouldFilterConfigStr (config : Str) : Bool :=
  let stripped := pyStrip config
  if stripped.isEmpty then true
  else if isSub FILTERED_PHRASE (pyLower stripped) then true
  else if MIN_PERCENT25_COUNT * 2 ≤ countSubstr (toL "%25") stripped then true
  else if MAX_CONFIG_LENGTH * 2 ≤ stripped.length then true
  else
    match protoSchemes.find? (fun p => List.isPrefixOf p (pyLower stripped)) with
    | none => true
    | some pref => protoValidate pref config

/-- should_filter_config on an arbitrary Python value (non-strings filtered). -/
def shouldFilterConfig : PyVal → Bool
  | .notStr => true
  | .str s => shouldFilterConfigStr s

/-- Character class of the built-in vmess pattern. -/
def vmessClass (c : Char) : Bool :=
  c.isAlphanum || c = '-' || c = '_' || c = '+' || c = '/' || c = '='

/-- Character class of the built-in vless pattern. -/
def vlessClass (c : Char) : Bool := vmessClass c || c = '?' || c = '&'

/-- Character class of the trojan/ss/ssr/tuic/hysteria2 built-in patterns. -/
def trojanClass (c : Char) : Bool := vlessClass c || c = '@' || c = '.'

/-- Character class of the built-in wireguard pattern (includes whitespace). -/
def wgClass (c : Char) : Bool := trojanClass c || isPyWs c

/-- Match attempt at the current position: first alternative scheme that is a
prefix here, followed by a non-empty greedy run of class characters.  When
grp is set the pattern has one capture group around the scheme and
re.findall returns only that group. -/
def tryMatchAt (alts : List Str) (cls : Char → Bool) (grp : Bool) (s : Str) :
    Option (Str × Str) :=
  match alts.find? (fun p => List.isPrefixOf p s) with
  | none => none
  | some p =>
    let rest0 := s.drop p.length
    let run := rest0.takeWhile cls
    if run.isEmpty then none
    else some (if grp then p else p ++ run, rest0.dropWhile cls)

/-- re.findall scanning: try to match at each position, emit non-overlapping
matches left to right (fuelled; fuel bounds the text length). -/
def scanRunsGo (alts : List Str) (cls : Char → Bool) (grp : Bool)
    (fuel : Nat) (s : Str) : List Str :=
  match fuel with
  | 0 => []
  | fuel + 1 =>
    match s with
    | [] => []
    | c :: cs =>
      match tryMatchAt alts cls grp (c :: cs) with
      | some (m, rest) => m :: scanRunsGo alts cls grp fuel rest
      | none => scanRunsGo alts cls grp fuel cs

/-- re.findall for one built-in protocol pattern. -/
def scanRuns (alts : List Str) (cls : Char → Bool) (grp : Bool) (s : Str) : List Str :=
  scanRunsGo alts cls grp s.length s

/-- One entry of PROTOCOL_REGEX_PATTERNS (scraper.py 638-647). -/
structure ProtoPattern where
  key : Str
  alts : List Str
  cls : Char → Bool
  grp : Bool

/-- PROTOCOL_REGEX_PATTERNS in dict order; wireguard and hysteria2 use an
alternation group, so re.findall returns only the captured scheme. -/
def builtinPatterns : List ProtoPattern :=
  [⟨toL "vmess", [toL "vmess://"], vmessClass, false⟩,
   ⟨toL "vless", [toL "vless://"], vlessClass, false⟩,
   ⟨toL "trojan", [toL "trojan://"], trojanClass, false⟩,
   ⟨toL "shadowsocks", [toL "ss://"], trojanClass, false⟩,
   ⟨toL "shadowsocksr", [toL "ssr://"], trojanClass, false⟩,
   ⟨toL "wireguard", [toL "wg://", toL "wireguard://"], wgClass, true⟩,
   ⟨toL "tuic", [toL "tuic://"], trojanClass, false⟩,
   ⟨toL "hysteria2", [toL "hy2://", toL "hysteria2://"], trojanClass, true⟩]

/-- The matches of one built-in pattern on the page text. -/
def builtinFindAll (pp : ProtoPattern) (text : Str) : List Str :=
  scanRuns pp.alts pp.cls pp.grp text

/-- A value of the keyword configuration: a list of pattern strings, or any
non-list value (discarded with a warning by main). -/
inductive CfgEntry where
  | strs (l : List Str)
  | nonList
deriving DecidableEq

/-- User-supplied patterns go through re.compile/findall, which the embedding
abstracts as an oracle from pattern and text to the found items (none models
re.error). -/
def RegexOracle := Str → Str → Option (List Str)

/-- Pass 1 of find_matches (scraper.py 657-668): each built-in pattern runs
only when its LOWERCASE protocol key is present in the configuration dict;
an empty result leaves the dict untouched (the update raises a swallowed
KeyError). -/
def pass1 (cfg : List (Str × CfgEntry)) (text : Str) : List (Str × List Str) :=
  builtinPatterns.foldl
    (fun m pp =>
      if containsKey cfg pp.key then
        let q := builtinFindAll pp text
        if q.isEmpty then m else unionInsert pp.key q m
      else m)
    []

/-- The items one category's pattern list contributes in pass 2: per pattern,
findall results that are non-empty strings with non-empty strip, stripped. -/
def patternMatchesOf (oracle : RegexOracle) (text : Str) (patterns : List Str) : List Str :=
  patterns.foldl
    (fun acc pat =>
      if (pyStrip pat).isEmpty then acc
      else
        match oracle pat text with
        | none => acc
        | some found =>
          setUnion acc
            (((found.filter (fun i => ¬ i.isEmpty)).map pyStrip).filter
              (fun i => ¬ i.isEmpty)))
    []

/-- Pass 2 of find_matches (scraper.py 670-707): user patterns per category,
skipped when the category already has matches and more than three patterns
(the performance short-circuit); non-empty results are unioned in. -/
def pass2 (oracle : RegexOracle) (cfg : List (Str × CfgEntry)) (text : Str)
    (m0 : List (Str × List Str)) : List (Str × List Str) :=
  cfg.foldl
    (fun m e =>
      match e.2 with
      | CfgEntry.nonList => m
      | CfgEntry.strs patterns =>
        if patterns.isEmpty then m
        else if containsKey m e.1 ∧ ¬ (lookupD e.1 m).isEmpty ∧ 3 < patterns.length then m
        else
          let cm := patternMatchesOf oracle text patterns
          if cm.isEmpty then m else unionInsert e.1 cm m)
    m0

/-- PROTOCOL_PREFIXES (scraper.py 46-55) in dict order. -/
def protoPrefixPairs : List (Str × List Str) :=
  [(toL "vmess", [toL "vmess://"]),
   (toL "vless", [toL "vless://"]),
   (toL "trojan", [toL "trojan://"]),
   (toL "shadowsocks", [toL "ss://"]),
   (toL "shadowsocksr", [toL "ssr://"]),
   (toL "wireguard", [toL "wg://", toL "wireguard://"]),
   (toL "tuic", [toL "tuic://"]),
   (toL "hysteria2", [toL "hy2://", toL "hysteria2://"])]

/-- Pass 3 cleanup for one category (scraper.py 709-718): when the lowercased
category name is a protocol identifier, keep only configs that start with one
of that protocol's scheme spellings. -/
def cleanupSet (cat : Str) (s : List Str) : List Str :=
  match lookupA (pyLower cat) protoPrefixPairs with
  | none => s
  | some prefs => s.filter (fun c => prefs.any (fun p => List.isPrefixOf p c))

/-- Pass 3 of find_matches applied to every category. -/
def pass3 (m : List (Str × List Str)) : List (Str × List Str) :=
  m.map (fun e => (e.1, cleanupSet e.1 e.2))

/-- find_matches (scraper.py 649-720). -/
def findMatches (oracle : RegexOracle) (text : Str) (cfg : List (Str × CfgEntry)) :
    List (Str × List Str) :=
  if text.isEmpty then []
  else pass3 (pass2 oracle cfg text (pass1 cfg text))

/-- re.findall of a metacharacter-free pattern under re.IGNORECASE: the
non-overlapping case-insensitive literal occurrences, returned with the
casing they have in the text.  Used to instantiate the oracle in concrete
runs. -/
def litFindAllGo (pat : Str) (fuel : Nat) (s : Str) : List Str :=
  match fuel with
  | 0 => []
  | fuel + 1 =>
    match s with
    | [] => []
    | c :: cs =>
      if List.isPrefixOf (pyLower pat) (pyLower (c :: cs)) ∧ ¬ pat.isEmpty then
        (c :: cs).take pat.length :: litFindAllGo pat fuel (List.drop (pat.length - 1) cs)
      else litFindAllGo pat fuel cs

/-- Literal-pattern findall. -/
def litFindAll (pat : Str) (s : Str) : List Str := litFindAllGo pat s.length s

/-- The oracle for literal user patterns. -/
def litOracle : RegexOracle := fun pat text => some (litFindAll pat text)

/-- PROTOCOL_CATEGORIES (scraper.py 94-97): note the capitalised names, which
never equal the lowercase keys of PROTOCOL_REGEX_PATTERNS. -/
def PROTOCOL_CATEGORIES : List Str :=
  [toL "Vmess", toL "Vless", toL "Trojan", toL "ShadowSocks", toL "ShadowSocksR",
   toL "WireGuard", toL "Tuic", toL "Hysteria2"]

/-- Keyword-configuration validation in main (scraper.py 1069-1091): missing
protocol categories are appended with an empty list, then every non-list
value is discarded and every list is reduced to its non-blank string
elements, dropping the category entirely when nothing remains (which also
drops the just-added empty protocol overrides). -/
def validateCategories (raw : List (Str × CfgEntry)) : List (Str × List Str) :=
  let missing := PROTOCOL_CATEGORIES.filter (fun p => ¬ containsKey raw p)
  let full := raw ++ missing.map (fun p => (p, CfgEntry.strs []))
  full.filterMap
    (fun e =>
      match e.2 with
      | CfgEntry.nonList => none
      | CfgEntry.strs l =>
        let f := l.filter (fun s => ¬ (pyStrip s).isEmpty)
        if f.isEmpty then none else some (e.1, f))

/-- The aggregator state of main: final_configs_by_country,
final_all_protocols and global_config_set (scraper.py 1211-1215). -/
structure RunState where
  byCountry : List (Str × List Str)
  byProtocol : List (Str × List Str)
  globalSet : List Str
deriving DecidableEq

/-- One candidate in the accept loop (scraper.py 1258-1269): skip when already
in the global dedup set, skip when filtered, otherwise record in the global
set and the protocol category; the Bool reports whether it was accepted. -/
def acceptCandidate (st : RunState) (cat : Str) (c : Str) : Bool × RunState :=
  if st.globalSet.contains c then (false, st)
  else if shouldFilterConfigStr c then (false, st)
  else
    (true,
      ⟨st.byCountry, updateA cat (setInsert c) st.byProtocol, setInsert c st.globalSet⟩)

/-- The accept phase of one page (scraper.py 1254-1273): every protocol
category of the page's matches is drained through acceptCandidate. -/
def acceptPhase (st : RunState) (pageMatches : List (Str × List Str)) : RunState :=
  pageMatches.foldl
    (fun acc e =>
      if PROTOCOL_CATEGORIES.contains e.1 then
        e.2.foldl (fun acc2 c => (acceptCandidate acc2 e.1 c).2) acc
      else acc)
    st

/-- Total accepted configs over all protocol categories (scraper.py 1248). -/
def totalProtocolConfigs (st : RunState) : Nat :=
  (st.byProtocol.map (fun e => e.2.length)).sum

/-- The page loop of main as its body is WRITTEN from find_matches on
(scraper.py 1236-1293): empty page text is skipped; when the budget is
already reached the loop breaks; otherwise the page's matches are accepted
and then line 1291 evaluates len(unique_configs), a name that is never
defined, raising NameError: the Except error carries the aggregator state at
that crash and no further page is processed.  In the program as EXECUTED the
iteration dies even earlier, at page_start_time = time.time() (line 1234,
time never imported at module level) -- see runPagesReal below -- so this
model serves only claims whose divergence the earlier crash can only
strengthen (less work is done before dying, never more). -/
def runPages (oracle : RegexOracle) (budget : Nat) (protoPats : List (Str × CfgEntry)) :
    RunState → List Str → Except RunState RunState
  | st, [] => .ok st
  | st, t :: rest =>
    if t.isEmpty then runPages oracle budget protoPats st rest
    else if budget ≤ totalProtocolConfigs st then .ok st
    else .error (acceptPhase st (findMatches oracle t protoPats))

/-- The page loop of main as the source actually executes (scraper.py
1229-1234): an empty page text is skipped (line 1230), and the first
non-empty page evaluates page_start_time = time.time() (line 1234) although
time is never imported at module level, raising NameError before
find_matches, before the budget check and before any acceptance; the error
carries the untouched aggregator state. -/
def runPagesReal : RunState → List Str → Except RunState RunState
  | st, [] => .ok st
  | st, t :: rest =>
    if t.isEmpty then runPagesReal st rest
    else .error st

/-- Outcome of a run of main. -/
inductive RunOutcome where
  | earlyExit
  | crashed (st : RunState)
  | finished (st : RunState)
deriving DecidableEq

/-- main's processing pipeline from the raw keyword configuration and the
fetched page texts (scraper.py 1053-1293) as its body is written: validate
the configuration, split protocol categories from country categories,
initialise the aggregator and run the page loop.  The program as executed
never gets this far: main's first statement start_time = time.time()
(line 997) raises NameError because time is never imported at module level,
so every real run aborts with even less done than this model computes --
which only strengthens the divergences stated about it. -/
def mainModel (oracle : RegexOracle) (budget : Nat) (rawCfg : List (Str × CfgEntry))
    (pages : List Str) : RunOutcome :=
  let cfg := validateCategories rawCfg
  if cfg.isEmpty then .earlyExit
  else
    let protoPats := cfg.filter (fun e => PROTOCOL_CATEGORIES.contains e.1)
    let countryKeys := cfg.filter (fun e => ¬ PROTOCOL_CATEGORIES.contains e.1)
    let st0 : RunState :=
      ⟨countryKeys.map (fun e => (e.1, [])),
       PROTOCOL_CATEGORIES.map (fun c => (c, [])), []⟩
    match runPages oracle budget (protoPats.map (fun e => (e.1, CfgEntry.strs e.2))) st0 pages with
    | .ok st => .finished st
    | .error st => .crashed st

/-- The protocol_handlers dispatch table of the country-association loop
(scraper.py 1312-1331), in dict order; dispatch is by case-sensitive
startswith on the raw config. -/
def protoHandlers : List (Str × (PyVal → Option Str)) :=
  [(toL "vmess://", getVmessName),
   (toL "vless://", getVlessName),
   (toL "trojan://", getTrojanName),
   (toL "ss://", getShadowsocksName),
   (toL "ssr://", getSsrName),
   (toL "wireguard://", getWireguardName),
   (toL "wg://", getWireguardName),
   (toL "tuic://", getTuicName),
   (toL "hy2://", getHysteria2Name),
   (toL "hysteria2://", getHysteria2Name)]

/-- Protocol-specific name extraction for a config (scraper.py 1333-1336). -/
def handlerName (config : Str) : Option Str :=
  match protoHandlers.find? (fun e => List.isPrefixOf e.1 config) with
  | some e => e.2 (PyVal.str config)
  | none => none

/-- name_to_check of the country-association loop (scraper.py 1296-1336): the
decoded, stripped URL fragment when non-empty, else the protocol-specific
extractor's result. -/
def resolvedName (config : Str) : Option Str :=
  let frag : Option Str :=
    if config.contains '#' then
      let n := pyStrip (pyUnquote (afterFirst '#' config))
      if n.isEmpty then none else some n
    else none
  match frag with
  | some n => some n
  | none => handlerName config

/-- Python str.isupper for ASCII input: at least one cased character and no
lowercase one. -/
def pyIsUpper (s : Str) : Bool :=
  s.any (fun c => c.isAlpha) && s.all (fun c => ¬ c.isLower)

/-- Python str.isalpha for ASCII input: non-empty and all letters. -/
def pyIsAlpha (s : Str) : Bool := ¬ s.isEmpty && s.all (fun c => c.isAlpha)

/-- The abbreviation test of the keyword loop (scraper.py 1373): length two or
three, all uppercase, alphabetic. -/
def isAbbrevKw (kw : Str) : Bool :=
  (kw.length = 2 ∨ kw.length = 3) && pyIsUpper kw && pyIsAlpha kw

/-- One keyword against the decoded name (scraper.py 1371-1384): abbreviations
must appear as a whole token of the lowercased name split on non-letters
(with a substring pre-check); all other keywords match by case-insensitive
(or exact) substring containment. -/
def keywordMatch (kw name : Str) : Bool :=
  let kwL := pyLower kw
  let nameL := pyLower name
  if isAbbrevKw kw then
    isSub kwL nameL && (splitNonAlpha nameL).contains kwL
  else
    isSub kwL nameL || isSub kw name

/-- One country's keyword list against the name (scraper.py 1348-1384): blank
keywords are dropped, duplicates keep the first occurrence, keywords are
stripped before matching, and any single match suffices. -/
def countryMatch (kws : List Str) (name : Str) : Bool :=
  (dedupKeepFirst (kws.filter (fun kw => ¬ (pyStrip kw).isEmpty))).any
    (fun kw => keywordMatch (pyStrip kw) name)

/-- The country loop for one config (scraper.py 1346-1392): the config is
added to EVERY country category whose keyword list matches; there is no break
after the first match. -/
def tagAll (countryKeys : List (Str × List Str)) (name config : Str)
    (byCountry : List (Str × List Str)) : List (Str × List Str) :=
  countryKeys.foldl
    (fun acc e => if countryMatch e.2 name then updateA e.1 (setInsert config) acc else acc)
    byCountry

/-- Country classification of one config (scraper.py 1296-1392): configs with
no usable name are skipped, all others are tagged into every matching country
category. -/
def classifyConfig (countryKeys : List (Str × List Str))
    (byCountry : List (Str × List Str)) (config : Str) : List (Str × List Str) :=
  match resolvedName config with
  | none => byCountry
  | some nm =>
    if nm.isEmpty then byCountry
    else tagAll countryKeys (pyStrip nm) config byCountry

/-- What one fetch attempt of fetch_url observes, after content processing. -/
inductive AttemptOutcome where
  | success2xx (t : Str)
  | tooLarge
  | errorBody (t : Str)
  | timeout
  | clientError
  | otherError
deriving DecidableEq

/-- Result of fetch_url: the returned content (url paired with it in the
source), or the NameError raised on the retry-delay line. -/
inductive FetchModelResult where
  | returned (content : Option Str)
  | nameErrorCrash
deriving DecidableEq

/-- The retry loop of fetch_url (scraper.py 531-625).  A too-large page
returns None immediately (line 547); a non-2xx response with a non-blank
short body returns it (line 602); a 2xx response computes text_content but
has NO return statement, so it falls through to the retry bookkeeping; any
exception is caught and also reaches the retry bookkeeping.  There,
retry_count is incremented and, when another attempt remains, the delay is
computed with random.uniform although random is never imported, raising
NameError (line 620); when no attempt remains the loop exits and returns
None. -/
def fetchGo (outcomes : List AttemptOutcome) (maxRetries : Nat) (rc fuel : Nat) :
    FetchModelResult :=
  match fuel with
  | 0 => .returned none
  | fuel + 1 =>
    if maxRetries < rc then .returned none
    else
      let retryStep : FetchModelResult :=
        if rc + 1 ≤ maxRetries then .nameErrorCrash
        else fetchGo outcomes maxRetries (rc + 1) fuel
      match outcomes.getD rc .otherError with
      | .tooLarge => .returned none
      | .errorBody t => if ¬ (pyStrip t).isEmpty then .returned (some t) else retryStep
      | _ => retryStep

/-- fetch_url (scraper.py 512-625) as a function of the per-attempt outcomes:
invalid URLs return None with no attempt. -/
def fetchUrlModel (validUrl : Bool) (outcomes : List AttemptOutcome)
    (maxRetries : Nat) : FetchModelResult :=
  if ¬ validUrl then .returned none
  else fetchGo outcomes maxRetries 0 (maxRetries + 2)

/-- Pointwise growth of a category dict: every member of every category set of
the first dict is still a member in the second. -/
def grows (m m' : List (Str × List Str)) : Prop :=
  ∀ k x, x ∈ lookupD k m → x ∈ lookupD k m'

/-- Number of occurrences of a config across all protocol category sets. -/
def protoOccurrences (st : RunState) (c : Str) : Nat :=
  (st.byProtocol.map (fun e => e.2.count c)).sum

/-!
## Lemmas and claim theorems
-/

/-! ### Association-list and set lemmas -/

theorem lookupA_mem (k : Str) (l : List (Str × List Str)) (v : List Str)
    (h : lookupA k l = some v) : (k, v) ∈ l := by
  induction l with
  | nil => simp [lookupA] at h
  | cons e rest ih =>
    obtain ⟨k', v'⟩ := e
    by_cases hk : k' = k
    · subst hk
      simp [lookupA] at h
      subst h
      exact List.mem_cons_self _ _
    · simp [lookupA, hk] at h
      exact List.mem_cons_of_mem _ (ih h)

theorem lookupA_updateA_self (k : Str) (f : List Str → List Str)
    (l : List (Str × List Str)) (v : List Str)
    (h : lookupA k l = some v) : lookupA k (updateA k f l) = some (f v) := by
  induction l with
  | nil => simp [lookupA] at h
  | cons e rest ih =>
    obtain ⟨k', v'⟩ := e
    by_cases hk : k' = k
    · subst hk
      simp [lookupA] at h
      subst h
      simp [updateA, lookupA]
    · simp [lookupA, hk] at h
      simp [updateA, lookupA, hk]
      exact ih h

theorem lookupA_updateA_ne (k k' : Str) (hne : k' ≠ k) (f : List Str → List Str)
    (l : List (Str × List Str)) : lookupA k (updateA k' f l) = lookupA k l := by
  induction l with
  | nil => rfl
  | cons e rest ih =>
    obtain ⟨k0, v0⟩ := e
    by_cases hk : k0 = k'
    · subst hk
      simp [updateA, lookupA, hne]
    · simp [updateA, lookupA, hk]
      by_cases h0 : k0 = k
      · simp [h0]
      · simp [h0, ih]

theorem lookupA_append (k : Str) (l1 l2 : List (Str × List Str)) :
    lookupA k (l1 ++ l2) =
      (match lookupA k l1 with
       | some v => some v
       | none => lookupA k l2) := by
  induction l1 with
  | nil => simp [lookupA]
  | cons e rest ih =>
    obtain ⟨k0, v0⟩ := e
    by_cases hk : k0 = k
    · simp [lookupA, hk]
    · simp [lookupA, hk, ih]

theorem containsKey_lookupA_none (k : Str) (l : List (Str × List Str))
    (h : containsKey l k = false) : lookupA k l = none := by
  induction l with
  | nil => rfl
  | cons e rest ih =>
    simp [containsKey, List.any_cons] at h
    obtain ⟨k0, v0⟩ := e
    simp at h
    simp [lookupA, h.1]
    exact ih (by simp [containsKey]; exact h.2)

theorem containsKey_lookupA_isSome (k : Str) (l : List (Str × List Str))
    (h : containsKey l k = true) : ∃ v, lookupA k l = some v := by
  induction l with
  | nil => simp [containsKey] at h
  | cons e rest ih =>
    obtain ⟨k0, v0⟩ := e
    by_cases hk : k0 = k
    · exact ⟨v0, by simp [lookupA, hk]⟩
    · simp [containsKey, List.any_cons, hk] at h
      obtain ⟨v, hv⟩ := ih (by simp [containsKey]; exact h)
      exact ⟨v, by simp [lookupA, hk, hv]⟩

theorem containsKey_not_mem_keys (k : Str) (l : List (Str × List Str))
    (h : containsKey l k = false) : ∀ e ∈ l, e.1 ≠ k := by
  intro e he
  simp [containsKey] at h
  exact h e.1 e.2 he

theorem mem_setInsert_self (x : Str) (s : List Str) : x ∈ setInsert x s := by
  unfold setInsert
  split
  · next hc => simpa using hc
  · next => simp

theorem mem_setInsert_of_mem (x y : Str) (s : List Str) (h : x ∈ s) :
    x ∈ setInsert y s := by
  unfold setInsert
  split
  · exact h
  · exact List.mem_append_left _ h

theorem mem_setUnion_left (x : Str) (q : List Str) :
    ∀ s : List Str, x ∈ s → x ∈ setUnion s q := by
  induction q with
  | nil => intro s h; exact h
  | cons y rest ih =>
    intro s h
    exact ih _ (mem_setInsert_of_mem x y s h)

theorem mem_setUnion_right (x : Str) (q : List Str) :
    ∀ s : List Str, x ∈ q → x ∈ setUnion s q := by
  induction q with
  | nil => intro s h; simp at h
  | cons y rest ih =>
    intro s h
    rcases List.mem_cons.mp h with rfl | h2
    · exact mem_setUnion_left x rest _ (mem_setInsert_self x s)
    · exact ih _ h2

theorem count_setInsert_self (c : Str) (s : List Str) (h : c ∉ s) :
    (setInsert c s).count c = s.count c + 1 := by
  unfold setInsert
  rw [if_neg (by simpa using h)]
  simp

/-! ### Growth lemmas for find_matches -/

theorem grows_refl (m : List (Str × List Str)) : grows m m := fun _ _ h => h

theorem grows_trans {m1 m2 m3 : List (Str × List Str)}
    (h12 : grows m1 m2) (h23 : grows m2 m3) : grows m1 m3 :=
  fun k x h => h23 k x (h12 k x h)

theorem lookupA_unionInsert_ne (k k' : Str) (hne : k' ≠ k) (q : List Str)
    (m : List (Str × List Str)) : lookupA k (unionInsert k' q m) = lookupA k m := by
  unfold unionInsert
  split
  · exact lookupA_updateA_ne k k' hne _ m
  · rw [lookupA_append]
    cases h : lookupA k m with
    | some v => rfl
    | none => simp [lookupA, hne]

theorem mem_lookupD_unionInsert_self (k : Str) (q : List Str)
    (m : List (Str × List Str)) (x : Str) (hx : x ∈ q) :
    x ∈ lookupD k (unionInsert k q m) := by
  unfold unionInsert
  split
  · next hc =>
    obtain ⟨v, hv⟩ := containsKey_lookupA_isSome k m hc
    rw [lookupD, lookupA_updateA_self k _ m v hv]
    exact mem_setUnion_right x q v hx
  · rw [lookupD, lookupA_append]
    cases h : lookupA k m with
    | some v =>
      next hc =>
      rw [containsKey_lookupA_none k m (by simpa using hc)] at h
      exact absurd h (by simp)
    | none =>
      simp [lookupA]
      exact mem_setUnion_right x q [] hx

theorem grows_unionInsert (k : Str) (q : List Str) (m : List (Str × List Str)) :
    grows m (unionInsert k q m) := by
  intro k' x hx
  by_cases hk : k = k'
  · subst hk
    unfold unionInsert
    split
    · next hc =>
      obtain ⟨v, hv⟩ := containsKey_lookupA_isSome k m hc
      rw [lookupD, hv] at hx
      rw [lookupD, lookupA_updateA_self k _ m v hv]
      exact mem_setUnion_left x q v hx
    · next hc =>
      rw [lookupD, containsKey_lookupA_none k m (by simpa using hc)] at hx
      simp at hx
  · rw [lookupD, lookupA_unionInsert_ne k' k hk q m]
    exact hx

theorem foldl_grows {β : Type} (step : List (Str × List Str) → β → List (Str × List Str))
    (hstep : ∀ acc e, grows acc (step acc e)) :
    ∀ (l : List β) (acc : List (Str × List Str)), grows acc (l.foldl step acc) := by
  intro l
  induction l with
  | nil => intro acc; exact grows_refl acc
  | cons e rest ih =>
    intro acc
    exact grows_trans (hstep acc e) (ih (step acc e))

theorem foldl_mem {β : Type} (step : List (Str × List Str) → β → List (Str × List Str))
    (hstep : ∀ acc e, grows acc (step acc e)) (e0 : β) (k x : Str)
    (hadd : ∀ acc, x ∈ lookupD k (step acc e0)) :
    ∀ (l : List β) (acc : List (Str × List Str)), e0 ∈ l →
      x ∈ lookupD k (l.foldl step acc) := by
  intro l
  induction l with
  | nil => intro acc h; simp at h
  | cons e rest ih =>
    intro acc h
    rcases List.mem_cons.mp h with rfl | h2
    · exact foldl_grows step hstep rest (step acc e0) k x (hadd acc)
    · exact ih (step acc e) h2

/-! ### Pass-level lemmas for find_matches -/

theorem pass1_step_grows (cfg : List (Str × CfgEntry)) (text : Str) :
    ∀ (acc : List (Str × List Str)) (pp : ProtoPattern),
      grows acc
        (if containsKey cfg pp.key then
          (let q := builtinFindAll pp text
           if q.isEmpty then acc else unionInsert pp.key q acc)
         else acc) := by
  intro acc pp
  split
  · simp only
    split
    · exact grows_refl acc
    · exact grows_unionInsert _ _ acc
  · exact grows_refl acc

theorem pass1_mem (cfg : List (Str × CfgEntry)) (text : Str) (pp : ProtoPattern)
    (hpp : pp ∈ builtinPatterns) (hkey : containsKey cfg pp.key = true)
    (m : Str) (hm : m ∈ builtinFindAll pp text) :
    m ∈ lookupD pp.key (pass1 cfg text) := by
  unfold pass1
  apply foldl_mem _ (pass1_step_grows cfg text) pp pp.key m _ builtinPatterns [] hpp
  intro acc
  rw [if_pos hkey]
  simp only
  rw [if_neg]
  · exact mem_lookupD_unionInsert_self pp.key _ acc m hm
  · intro hempty
    rw [List.isEmpty_iff] at hempty
    rw [hempty] at hm
    simp at hm

theorem pass2_step_grows (oracle : RegexOracle) (text : Str) :
    ∀ (acc : List (Str × List Str)) (e : Str × CfgEntry),
      grows acc
        (match e.2 with
         | CfgEntry.nonList => acc
         | CfgEntry.strs patterns =>
           if patterns.isEmpty then acc
           else if containsKey acc e.1 ∧ ¬ (lookupD e.1 acc).isEmpty ∧ 3 < patterns.length then acc
           else
             let cm := patternMatchesOf oracle text patterns
             if cm.isEmpty then acc else unionInsert e.1 cm acc) := by
  intro acc e
  cases e.2 with
  | nonList => exact grows_refl acc
  | strs patterns =>
    simp only
    split
    · exact grows_refl acc
    · split
      · exact grows_refl acc
      · split
        · exact grows_refl acc
        · exact grows_unionInsert _ _ acc

theorem pass2_grows (oracle : RegexOracle) (cfg : List (Str × CfgEntry)) (text : Str)
    (m0 : List (Str × List Str)) : grows m0 (pass2 oracle cfg text m0) := by
  unfold pass2
  exact foldl_grows _ (fun acc e => pass2_step_grows oracle text acc e) cfg m0

theorem pass1_lookupA_none (cfg : List (Str × CfgEntry)) (text : Str) (p : Str)
    (h : containsKey cfg p = false) : lookupA p (pass1 cfg text) = none := by
  unfold pass1
  have hgen : ∀ (l : List ProtoPattern) (acc : List (Str × List Str)),
      lookupA p acc = none →
      lookupA p (l.foldl (fun m pp =>
        if containsKey cfg pp.key then
          (let q := builtinFindAll pp text
           if q.isEmpty then m else unionInsert pp.key q m)
        else m) acc) = none := by
    intro l
    induction l with
    | nil => intro acc hacc; exact hacc
    | cons pp rest ih =>
      intro acc hacc
      apply ih
      beta_reduce
      by_cases hk : containsKey cfg pp.key
      · rw [if_pos hk]
        simp only
        split
        · exact hacc
        · have hne : pp.key ≠ p := by
            intro heq
            rw [heq] at hk
            rw [h] at hk
            exact Bool.noConfusion hk
          rw [lookupA_unionInsert_ne p pp.key hne _ acc]
          exact hacc
      · rw [if_neg hk]
        exact hacc
  exact hgen builtinPatterns [] rfl

theorem pass2_lookupA_none (oracle : RegexOracle) (cfg : List (Str × CfgEntry))
    (text : Str) (p : Str) (h : containsKey cfg p = false)
    (m0 : List (Str × List Str)) :
    lookupA p (pass2 oracle cfg text m0) = lookupA p m0 := by
  unfold pass2
  have hall : ∀ e ∈ cfg, e.1 ≠ p := by
    intro e he heq
    have hck : containsKey cfg p = true := by
      unfold containsKey
      rw [List.any_eq_true]
      exact ⟨e, he, by simp [heq]⟩
    rw [h] at hck
    exact Bool.noConfusion hck
  have hgen : ∀ (l : List (Str × CfgEntry)), (∀ e ∈ l, e.1 ≠ p) →
      ∀ (acc : List (Str × List Str)),
      lookupA p (l.foldl (fun m e =>
        match e.2 with
        | CfgEntry.nonList => m
        | CfgEntry.strs patterns =>
          if patterns.isEmpty then m
          else if containsKey m e.1 ∧ ¬ (lookupD e.1 m).isEmpty ∧ 3 < patterns.length then m
          else
            let cm := patternMatchesOf oracle text patterns
            if cm.isEmpty then m else unionInsert e.1 cm m) acc) = lookupA p acc := by
    intro l
    induction l with
    | nil => intro _ acc; rfl
    | cons e rest ih =>
      intro hl acc
      rw [List.foldl_cons]
      rw [ih (fun e' he' => hl e' (List.mem_cons_of_mem _ he'))]
      have hne : e.1 ≠ p := hl e (List.mem_cons_self _ _)
      cases he2 : e.2 with
      | nonList => rfl
      | strs patterns =>
        simp only
        split
        · rfl
        · split
          · rfl
          · split
            · rfl
            · exact lookupA_unionInsert_ne p e.1 hne _ acc
  exact hgen cfg hall m0

theorem pass3_lookupA (k : Str) (m : List (Str × List Str)) :
    lookupA k (pass3 m) = (lookupA k m).map (cleanupSet k) := by
  induction m with
  | nil => rfl
  | cons e rest ih =>
    obtain ⟨k0, v0⟩ := e
    by_cases hk : k0 = k
    · subst hk
      simp [pass3, lookupA]
    · simp [pass3, lookupA, hk]
      simpa [pass3] using ih

theorem scanRunsGo_mem_scheme (alts : List Str) (cls : Char → Bool) (grp : Bool) :
    ∀ (fuel : Nat) (s m : Str), m ∈ scanRunsGo alts cls grp fuel s →
      ∃ a ∈ alts, List.isPrefixOf a m = true := by
  intro fuel
  induction fuel with
  | zero => intro s m hm; simp [scanRunsGo] at hm
  | succ fuel ih =>
    intro s m hm
    cases s with
    | nil => simp [scanRunsGo] at hm
    | cons c cs =>
      rw [scanRunsGo] at hm
      cases htm : tryMatchAt alts cls grp (c :: cs) with
      | none =>
        rw [htm] at hm
        exact ih cs m hm
      | some pr =>
        rw [htm] at hm
        rcases List.mem_cons.mp hm with rfl | h2
        · unfold tryMatchAt at htm
          cases hfind : alts.find? (fun p => List.isPrefixOf p (c :: cs)) with
          | none => rw [hfind] at htm; exact Option.noConfusion htm
          | some p =>
            rw [hfind] at htm
            simp only at htm
            split at htm
            · exact Option.noConfusion htm
            · have hpmem : p ∈ alts := List.mem_of_find?_eq_some hfind
              have hfst : pr.1 = if grp then p else p ++ ((c :: cs).drop p.length).takeWhile cls := by
                have := congrArg Prod.fst (Option.some.inj htm)
                exact this.symm
              refine ⟨p, hpmem, ?_⟩
              rw [hfst]
              cases grp with
              | true => simp [List.isPrefixOf_iff_prefix]
              | false =>
                simp only [if_neg (by simp : ¬ (false = true))]
                rw [List.isPrefixOf_iff_prefix]
                exact List.prefix_append p _
        · exact ih pr.2 m h2

theorem c1_superset_aux (oracle : RegexOracle) (text : Str) (cfg : List (Str × CfgEntry))
    (pp : ProtoPattern) (hpp : pp ∈ builtinPatterns)
    (hclean : lookupA (pyLower pp.key) protoPrefixPairs = some pp.alts)
    (h : containsKey cfg pp.key = true) (m : Str) (hm : m ∈ builtinFindAll pp text) :
    m ∈ lookupD pp.key (findMatches oracle text cfg) := by
  unfold findMatches
  by_cases htext : text.isEmpty
  · exfalso
    rw [List.isEmpty_iff] at htext
    rw [htext] at hm
    simp [builtinFindAll, scanRuns, scanRunsGo] at hm
  · rw [if_neg (by simpa using htext)]
    have h1 : m ∈ lookupD pp.key (pass1 cfg text) := pass1_mem cfg text pp hpp h m hm
    have h2 : m ∈ lookupD pp.key (pass2 oracle cfg text (pass1 cfg text)) :=
      pass2_grows oracle cfg text (pass1 cfg text) pp.key m h1
    rw [lookupD, pass3_lookupA]
    cases hl : lookupA pp.key (pass2 oracle cfg text (pass1 cfg text)) with
    | none =>
      rw [lookupD, hl] at h2
      simp at h2
    | some s =>
      rw [lookupD, hl] at h2
      simp only [Option.map_some', Option.getD_some]
      unfold cleanupSet
      rw [hclean]
      refine List.mem_filter.mpr ⟨h2, ?_⟩
      obtain ⟨a, ha, hpre⟩ := scanRunsGo_mem_scheme pp.alts pp.cls pp.grp text.length text m hm
      exact List.any_eq_true.mpr ⟨a, ha, hpre⟩

/-- Claim C1, counterexample: on page text vmess://abc the built-in vmess
pattern extracts the link, yet find_matches with a configuration that is
missing the vmess key returns no candidates at all, while the same
configuration WITH the key (carrying an empty pattern list) does extract it:
a missing protocol category is NOT treated as an empty override. -/
theorem c1_counterexample :
    findMatches litOracle (toL "vmess://abc") [] = []
  ∧ findMatches litOracle (toL "vmess://abc") [(toL "vmess", CfgEntry.strs [])]
      = [(toL "vmess", [toL "vmess://abc"])] := by
  exact ⟨by decide, by decide⟩

/-- Claim C1 (amended): a built-in protocol pattern runs only when its
lowercase protocol identifier is a key of the keyword configuration passed to
find_matches: when the key is absent the result has no entry for that
protocol at all (the built-in extracts nothing), and when the key is present
-- even with an empty pattern list -- every match of the built-in pattern is
contained in the result, with caller-supplied custom patterns only ever
adding matches on top. -/
theorem c1_builtin_gating (oracle : RegexOracle) (text : Str) (cfg : List (Str × CfgEntry))
    (pp : ProtoPattern) (hpp : pp ∈ builtinPatterns) :
    (containsKey cfg pp.key = false → lookupA pp.key (findMatches oracle text cfg) = none)
  ∧ (containsKey cfg pp.key = true →
      ∀ m ∈ builtinFindAll pp text, m ∈ lookupD pp.key (findMatches oracle text cfg)) := by
  constructor
  · intro h
    unfold findMatches
    split
    · rfl
    · rw [pass3_lookupA, pass2_lookupA_none oracle cfg text pp.key h,
        pass1_lookupA_none cfg text pp.key h]
      rfl
  · intro h m hm
    have hclean : lookupA (pyLower pp.key) protoPrefixPairs = some pp.alts := by
      rcases (by simpa [builtinPatterns] using hpp :
        pp = ⟨toL "vmess", [toL "vmess://"], vmessClass, false⟩ ∨
        pp = ⟨toL "vless", [toL "vless://"], vlessClass, false⟩ ∨
        pp = ⟨toL "trojan", [toL "trojan://"], trojanClass, false⟩ ∨
        pp = ⟨toL "shadowsocks", [toL "ss://"], trojanClass, false⟩ ∨
        pp = ⟨toL "shadowsocksr", [toL "ssr://"], trojanClass, false⟩ ∨
        pp = ⟨toL "wireguard", [toL "wg://", toL "wireguard://"], wgClass, true⟩ ∨
        pp = ⟨toL "tuic", [toL "tuic://"], trojanClass, false⟩ ∨
        pp = ⟨toL "hysteria2", [toL "hy2://", toL "hysteria2://"], trojanClass, true⟩)
        with rfl | rfl | rfl | rfl | rfl | rfl | rfl | rfl
      all_goals decide
    exact c1_superset_aux oracle text cfg pp hpp hclean h m hm

/-- Claim C1 witness: the amended gating theorem applied to the built-in vmess
pattern, a configuration holding the vmess key with no custom patterns, and
the page text vmess://abc. -/
theorem c1_builtin_gating_witness :
    toL "vmess://abc" ∈ lookupD (toL "vmess")
      (findMatches litOracle (toL "vmess://abc") [(toL "vmess", CfgEntry.strs [])]) :=
  (c1_builtin_gating litOracle (toL "vmess://abc") [(toL "vmess", CfgEntry.strs [])]
    ⟨toL "vmess", [toL "vmess://"], vmessClass, false⟩
    (List.mem_cons_self _ _)).2 (by decide) (toL "vmess://abc") (by decide)

/-- Claim C2: the end-to-end scenario -- page text containing
vless://abc#GermanyNode with keyword config Vless: [] and
Germany: [DE, Germany] -- does NOT end with the link in the Vless and Germany
categories: the empty Vless pattern list is dropped during validation, the
built-in patterns key on lowercase identifiers and so never run, and the page
loop raises NameError on the undefined unique_configs, leaving every category
empty when the run crashes.  Stated for every regex oracle, since no user
pattern ever reaches it. -/
theorem c2_scenario_crashes (oracle : RegexOracle) :
    mainModel oracle MAX_TOTAL_CONFIGS
      [(toL "Vless", CfgEntry.strs []),
       (toL "Germany", CfgEntry.strs [toL "DE", toL "Germany"])]
      [toL "some text vless://abc#GermanyNode more"]
    = RunOutcome.crashed
        ⟨[(toL "Germany", [])], PROTOCOL_CATEGORIES.map (fun c => (c, [])), []⟩ := by
  rfl

/-- Claim C3: a two-page corpus where the second page contains a qualifying,
extractable vmess candidate still ends in a crash while processing the FIRST
page (NameError on the undefined unique_configs at scraper.py 1291), so the
second page is never extracted and the final state lacks its candidate --
refuting the claim that a failure in one page never aborts the rest. -/
theorem c3_crash_aborts_remaining_pages :
    mainModel litOracle MAX_TOTAL_CONFIGS
      [(toL "Vmess", CfgEntry.strs [toL "vmess://page2link"])]
      [toL "plainpage", toL "vmess://page2link"]
    = RunOutcome.crashed ⟨[], PROTOCOL_CATEGORIES.map (fun c => (c, [])), []⟩
  ∧ findMatches litOracle (toL "vmess://page2link")
      [(toL "Vmess", CfgEntry.strs [toL "vmess://page2link"])]
      = [(toL "Vmess", [toL "vmess://page2link"])]
  ∧ shouldFilterConfigStr (toL "vmess://page2link") = false := by
  exact ⟨by decide, by decide, by decide⟩

/-- Claim C4: the budget ceiling is never enforced, in two layers.  As
executed, the page loop raises NameError at the timing statement of line
1234 (time is never imported) as soon as the first non-empty page arrives --
before the budget check and before the accept loop -- so on the failing
input (budget 1, one page carrying two distinct qualifying candidates) the
run crashes with zero accepted configs and the claimed
acceptance-becomes-a-no-op machinery never runs at all.  As written, the
accept loop (scraper.py 1254-1273) contains no per-candidate budget recheck
(the only comparison, 1247-1251, sits between pages): fed that same page's
matches directly, it accepts both candidates and drives the total to 2 over
the nominal budget of 1. -/
theorem c4_budget_not_enforced :
    runPagesReal ⟨[], PROTOCOL_CATEGORIES.map (fun c => (c, [])), []⟩
      [toL "vmess://aaa vmess://bbb"]
    = Except.error ⟨[], PROTOCOL_CATEGORIES.map (fun c => (c, [])), []⟩
  ∧ totalProtocolConfigs ⟨[], PROTOCOL_CATEGORIES.map (fun c => (c, [])), []⟩ = 0
  ∧ totalProtocolConfigs
      (acceptPhase ⟨[], PROTOCOL_CATEGORIES.map (fun c => (c, [])), []⟩
        (findMatches litOracle (toL "vmess://aaa vmess://bbb")
          [(toL "Vmess", CfgEntry.strs [toL "vmess://aaa", toL "vmess://bbb"])])) = 2 := by
  exact ⟨rfl, by decide, by decide⟩

/-- Claim C8 (amended): get_vmess_name decodes the base64 payload after the
scheme (tolerating missing padding, and URL-decoding then retrying on
failure), parses it as JSON and returns the ps field; the fixture
vmess:// + base64 of the ps: TestName object decodes to TestName, as do the
same payload without padding and the same payload with a percent-encoded
padding character (exercising the URL-decode retry). -/
theorem c8_vmess_fixture :
    getVmessName (PyVal.str (toL "vmess://" ++ b64Encode (toL "\x7b\"ps\":\"TestName\"\x7d")))
      = some (toL "TestName")
  ∧ getVmessName (PyVal.str (toL "vmess://eyJwcyI6IlRlc3ROYW1lIn0")) = some (toL "TestName")
  ∧ getVmessName (PyVal.str (toL "vmess://eyJwcyI6IlRlc3ROYW1lIn0%3D")) = some (toL "TestName")
    := by
  exact ⟨by decide, by decide, by decide⟩

/-- Claim C8, counterexample: the URL-safe base64 alphabet is NOT tolerated.
eyJwcyI6IkE_In0 is exactly the URL-safe, unpadded encoding of the JSON object
with ps: A? -- yet get_vmess_name returns None on it (Python's b64decode
discards the underscore instead of translating it, leaving an invalid
length), while the standard-alphabet spelling of the same payload decodes to
A?. -/
theorem c8_urlsafe_counterexample :
    b64EncodeUrlsafeNoPad (toL "\x7b\"ps\":\"A?\"\x7d") = toL "eyJwcyI6IkE_In0"
  ∧ getVmessName (PyVal.str (toL "vmess://eyJwcyI6IkE_In0")) = none
  ∧ getVmessName (PyVal.str (toL "vmess://eyJwcyI6IkE/In0")) = some (toL "A?") := by
  exact ⟨by decide, by decide, by decide⟩

/-- Claim C9: a URL whose first two attempts time out and whose third attempt
would return a 2xx page does NOT yield that page: scheduling the first retry
delay evaluates random.uniform although random is never imported, so
fetch_url dies with NameError before any retry happens (and the 2xx branch
has no return statement in any case). -/
theorem c9_fetch_retry_namerror :
    fetchUrlModel true
      [AttemptOutcome.timeout, AttemptOutcome.timeout,
       AttemptOutcome.success2xx (toL "PAGE")] 2
    = FetchModelResult.nameErrorCrash := by
  decide

/-- Claim C10: every per-protocol name extractor and decode_base64 is total
with an Option-string result: non-string inputs yield None, strings without
the function's scheme yield None (get_wireguard_name accepts only the
wireguard:// spelling, get_hysteria2_name accepts both of its spellings), and
undecodable payloads yield None; no input raises. -/
theorem c10_extractors_total :
    (decodeBase64 PyVal.notStr = none ∧ decodeBase64 (PyVal.str []) = none
      ∧ decodeBase64 (PyVal.str (toL "a")) = none
      ∧ getVmessName PyVal.notStr = none ∧ getSsrName PyVal.notStr = none
      ∧ getTrojanName PyVal.notStr = none ∧ getVlessName PyVal.notStr = none
      ∧ getShadowsocksName PyVal.notStr = none ∧ getTuicName PyVal.notStr = none
      ∧ getHysteria2Name PyVal.notStr = none ∧ getWireguardName PyVal.notStr = none
      ∧ getVmessName (PyVal.str (toL "vmess://!!!")) = none)
  ∧ ∀ s : Str,
      (List.isPrefixOf (toL "vmess://") s = false → getVmessName (PyVal.str s) = none)
    ∧ (List.isPrefixOf (toL "ssr://") s = false → getSsrName (PyVal.str s) = none)
    ∧ (List.isPrefixOf (toL "trojan://") s = false → getTrojanName (PyVal.str s) = none)
    ∧ (List.isPrefixOf (toL "vless://") s = false → getVlessName (PyVal.str s) = none)
    ∧ (List.isPrefixOf (toL "ss://") s = false → getShadowsocksName (PyVal.str s) = none)
    ∧ (List.isPrefixOf (toL "tuic://") s = false → getTuicName (PyVal.str s) = none)
    ∧ (List.isPrefixOf (toL "hy2://") s = false ∧ List.isPrefixOf (toL "hysteria2://") s = false
        → getHysteria2Name (PyVal.str s) = none)
    ∧ (List.isPrefixOf (toL "wireguard://") s = false → getWireguardName (PyVal.str s) = none) := by
  refine ⟨by decide, ?_⟩
  intro s
  refine ⟨fun h => ?_, fun h => ?_, fun h => ?_, fun h => ?_, fun h => ?_, fun h => ?_,
    fun h => ?_, fun h => ?_⟩
  · simp [getVmessName, h]
  · simp [getSsrName, h]
  · simp [getTrojanName, h]
  · simp [getVlessName, h]
  · simp [getShadowsocksName, h]
  · simp [getTuicName, h]
  · simp [getHysteria2Name, h.1, h.2]
  · simp [getWireguardName, h]

/-- Claim C10 witness: the totality theorem applied at the schemeless string
x for every extractor. -/
theorem c10_extractors_total_witness :
    getVmessName (PyVal.str (toL "x")) = none ∧ getSsrName (PyVal.str (toL "x")) = none
  ∧ getTrojanName (PyVal.str (toL "x")) = none ∧ getVlessName (PyVal.str (toL "x")) = none
  ∧ getShadowsocksName (PyVal.str (toL "x")) = none ∧ getTuicName (PyVal.str (toL "x")) = none
  ∧ getHysteria2Name (PyVal.str (toL "x")) = none
  ∧ getWireguardName (PyVal.str (toL "x")) = none := by
  have h := c10_extractors_total.2 (toL "x")
  exact ⟨h.1 (by decide), h.2.1 (by decide), h.2.2.1 (by decide), h.2.2.2.1 (by decide),
    h.2.2.2.2.1 (by decide), h.2.2.2.2.2.1 (by decide),
    h.2.2.2.2.2.2.1 ⟨by decide, by decide⟩, h.2.2.2.2.2.2.2 (by decide)⟩

theorem sumCount_updateA (c k : Str) (f : List Str → List Str) :
    ∀ (l : List (Str × List Str)) (s0 : List Str), (l.map Prod.fst).Nodup →
      lookupA k l = some s0 →
      ((updateA k f l).map (fun e => e.2.count c)).sum + s0.count c
        = (l.map (fun e => e.2.count c)).sum + (f s0).count c := by
  intro l
  induction l with
  | nil => intro s0 _ h; simp [lookupA] at h
  | cons e rest ih =>
    intro s0 hnd hl
    obtain ⟨k0, v0⟩ := e
    by_cases hk : k0 = k
    · subst hk
      simp [lookupA] at hl
      subst hl
      simp [updateA, List.map_cons, List.sum_cons]
      omega
    · simp [lookupA, hk] at hl
      simp only [updateA, if_neg hk, List.map_cons, List.sum_cons]
      have hnd' : (rest.map Prod.fst).Nodup := by
        simp [List.nodup_cons] at hnd
        exact hnd.2
      have hrec := ih s0 hnd' hl
      omega

/-- Claim C5: acceptance is idempotent on the raw link string: a candidate
that is new to the global dedup index, passes the filter and is nowhere in
the protocol categories is accepted exactly once -- afterwards it occurs once
across the protocol category sets -- and a second submission of the same raw
string, to the same or any other category, returns false and leaves the state
(global index and every category set) completely unchanged. -/
theorem c5_accept_idempotent (st : RunState) (cat cat' c : Str) (s0 : List Str)
    (hnd : (st.byProtocol.map Prod.fst).Nodup)
    (hcat : lookupA cat st.byProtocol = some s0)
    (hg : st.globalSet.contains c = false)
    (hf : shouldFilterConfigStr c = false)
    (h0 : protoOccurrences st c = 0) :
    (acceptCandidate st cat c).1 = true
  ∧ protoOccurrences (acceptCandidate st cat c).2 c = 1
  ∧ acceptCandidate (acceptCandidate st cat c).2 cat' c
      = (false, (acceptCandidate st cat c).2) := by
  have hgm : c ∉ st.globalSet := by simpa using hg
  have hstep : acceptCandidate st cat c =
      (true, ⟨st.byCountry, updateA cat (setInsert c) st.byProtocol,
        setInsert c st.globalSet⟩) := by
    simp [acceptCandidate, hgm, hf]
  have hmem := lookupA_mem cat st.byProtocol s0 hcat
  have hs0 : s0.count c = 0 := by
    have hin : s0.count c ∈ st.byProtocol.map (fun e => e.2.count c) :=
      List.mem_map_of_mem (fun e => e.2.count c) hmem
    have hall := (List.sum_eq_zero_iff.mp h0)
    exact hall _ hin
  have hnot : c ∉ s0 := List.count_eq_zero.mp hs0
  refine ⟨by rw [hstep], ?_, ?_⟩
  · rw [hstep]
    show ((updateA cat (setInsert c) st.byProtocol).map (fun e => e.2.count c)).sum = 1
    have heq := sumCount_updateA c cat (setInsert c) st.byProtocol s0 hnd hcat
    have hcnt := count_setInsert_self c s0 hnot
    have hsum : (st.byProtocol.map (fun e => e.2.count c)).sum = 0 := h0
    omega
  · rw [hstep]
    have hin : c ∈ setInsert c st.globalSet := mem_setInsert_self c st.globalSet
    simp [acceptCandidate, hin]

/-- Claim C5 witness: the idempotence theorem applied to the freshly
initialised aggregator and the candidate vmess://ok, submitted to Vmess and
then again to Vless. -/
theorem c5_accept_idempotent_witness :
    (acceptCandidate ⟨[], PROTOCOL_CATEGORIES.map (fun x => (x, [])), []⟩
        (toL "Vmess") (toL "vmess://ok")).1 = true
  ∧ protoOccurrences
      (acceptCandidate ⟨[], PROTOCOL_CATEGORIES.map (fun x => (x, [])), []⟩
        (toL "Vmess") (toL "vmess://ok")).2 (toL "vmess://ok") = 1
  ∧ acceptCandidate
      (acceptCandidate ⟨[], PROTOCOL_CATEGORIES.map (fun x => (x, [])), []⟩
        (toL "Vmess") (toL "vmess://ok")).2 (toL "Vless") (toL "vmess://ok")
      = (false,
        (acceptCandidate ⟨[], PROTOCOL_CATEGORIES.map (fun x => (x, [])), []⟩
          (toL "Vmess") (toL "vmess://ok")).2) :=
  c5_accept_idempotent ⟨[], PROTOCOL_CATEGORIES.map (fun x => (x, [])), []⟩
    (toL "Vmess") (toL "Vless") (toL "vmess://ok") []
    (by decide) (by decide) (by decide) (by decide) (by decide)

theorem splitNonAlpha_ne_nil (s : Str) : splitNonAlpha s ≠ [] := by
  cases s with
  | nil => simp [splitNonAlpha]
  | cons c cs =>
    unfold splitNonAlpha
    split
    · cases h : splitNonAlpha cs with
      | nil => simp
      | cons t ts => simp
    · simp

theorem splitNonAlpha_head_pre :
    ∀ (s : Str) (h : Str) (ts : List Str), splitNonAlpha s = h :: ts → h <+: s := by
  intro s
  induction s with
  | nil =>
    intro h ts heq
    simp [splitNonAlpha] at heq
    rw [heq.1]
  | cons c cs ih =>
    intro h ts heq
    unfold splitNonAlpha at heq
    split at heq
    · cases hs : splitNonAlpha cs with
      | nil => exact absurd hs (splitNonAlpha_ne_nil cs)
      | cons t0 ts0 =>
        rw [hs] at heq
        have h1 : h = c :: t0 := ((List.cons.inj heq).1).symm
        subst h1
        exact List.cons_prefix_cons.mpr ⟨rfl, ih t0 ts0 hs⟩
    · have h1 : h = [] := ((List.cons.inj heq).1).symm
      subst h1
      exact List.nil_prefix

theorem splitNonAlpha_mem_segment :
    ∀ (s t : Str), t ∈ splitNonAlpha s → t <:+: s := by
  intro s
  induction s with
  | nil =>
    intro t ht
    simp [splitNonAlpha] at ht
    rw [ht]
  | cons c cs ih =>
    intro t ht
    unfold splitNonAlpha at ht
    split at ht
    · cases hs : splitNonAlpha cs with
      | nil => exact absurd hs (splitNonAlpha_ne_nil cs)
      | cons t0 ts0 =>
        rw [hs] at ht
        rcases List.mem_cons.mp ht with rfl | h2
        · have hpre : t0 <+: cs := splitNonAlpha_head_pre cs t0 ts0 hs
          exact (List.cons_prefix_cons.mpr ⟨rfl, hpre⟩).isInfix
        · have : t ∈ splitNonAlpha cs := by rw [hs]; exact List.mem_cons_of_mem _ h2
          exact (ih t this).trans (List.infix_cons (List.infix_refl cs))
    · rcases List.mem_cons.mp ht with rfl | h2
      · exact List.nil_infix
      · exact (ih t h2).trans (List.infix_cons (List.infix_refl cs))

theorem isSub_of_segment (t s : Str) (h : t <:+: s) : isSub t s = true := by
  obtain ⟨u, v, rfl⟩ := h
  unfold isSub
  rw [List.any_eq_true]
  refine ⟨u.length, ?_, ?_⟩
  · rw [List.mem_range]
    simp [List.length_append]
    omega
  · rw [List.append_assoc, List.drop_left]
    rw [List.isPrefixOf_iff_prefix]
    exact List.prefix_append t v

/-- Claim C6: for every decoded label and every abbreviation-style keyword
(two or three characters, all uppercase, alphabetic), the keyword matches the
label exactly when its lowercasing equals a whole token of the lowercased
label split on non-alphabetic boundaries; the substring pre-check of the code
adds nothing, because a whole token is always a substring. -/
theorem c6_token_policy (kw name : Str) (h : isAbbrevKw kw = true) :
    keywordMatch kw name = true
      ↔ (splitNonAlpha (pyLower name)).contains (pyLower kw) = true := by
  unfold keywordMatch
  rw [if_pos h]
  constructor
  · intro hm
    exact ((Bool.and_eq_true _ _).mp hm).2
  · intro hc
    refine (Bool.and_eq_true _ _).mpr ⟨?_, hc⟩
    have hmem : pyLower kw ∈ splitNonAlpha (pyLower name) := by simpa using hc
    exact isSub_of_segment _ _ (splitNonAlpha_mem_segment (pyLower name) (pyLower kw) hmem)

/-- Claim C6 witness: the keyword US matches the label US-Node-1 through the
token policy; together with a direct evaluation showing US does not match
Austria, where us occurs only inside a longer word. -/
theorem c6_token_policy_witness :
    keywordMatch (toL "US") (toL "US-Node-1") = true
  ∧ keywordMatch (toL "US") (toL "Austria") = false :=
  ⟨(c6_token_policy (toL "US") (toL "US-Node-1") (by decide)).mpr (by decide),
   by decide⟩

theorem tagAll_lookup_preserved (k : Str) (nm config : Str) :
    ∀ (l : List (Str × List Str)) (acc : List (Str × List Str)),
      (∀ e ∈ l, e.1 ≠ k) →
      lookupA k (tagAll l nm config acc) = lookupA k acc := by
  intro l
  induction l with
  | nil => intro acc _; rfl
  | cons e rest ih =>
    intro acc hl
    unfold tagAll
    rw [List.foldl_cons]
    have hrec := ih (if countryMatch e.2 nm then updateA e.1 (setInsert config) acc else acc)
      (fun e' he' => hl e' (List.mem_cons_of_mem _ he'))
    unfold tagAll at hrec
    rw [hrec]
    split
    · exact lookupA_updateA_ne k e.1 (hl e (List.mem_cons_self _ _)) _ acc
    · rfl

theorem tagAll_mem (k : Str) (kws : List Str) (nm config : Str) :
    ∀ (l : List (Str × List Str)) (acc : List (Str × List Str)) (s : List Str),
      (k, kws) ∈ l → (l.map Prod.fst).Nodup →
      countryMatch kws nm = true →
      lookupA k acc = some s →
      ∃ s', lookupA k (tagAll l nm config acc) = some s' ∧ config ∈ s' := by
  intro l
  induction l with
  | nil => intro acc s hmem; simp at hmem
  | cons e rest ih =>
    intro acc s hmem hnd hmatch hlk
    have hnd' : (rest.map Prod.fst).Nodup := by
      simp [List.nodup_cons] at hnd
      exact hnd.2
    unfold tagAll
    rw [List.foldl_cons]
    by_cases hk : e.1 = k
    · have hnd2 : (e.1 :: rest.map Prod.fst).Nodup := by simpa using hnd
      have hnotin := (List.nodup_cons.mp hnd2).1
      have hkeysne : ∀ e' ∈ rest, e'.1 ≠ k := by
        intro e' he' heq
        apply hnotin
        have hm : e'.1 ∈ rest.map Prod.fst := List.mem_map_of_mem Prod.fst he'
        rw [heq, ← hk] at hm
        exact hm
      have hekws : e = (k, kws) := by
        rcases List.mem_cons.mp hmem with h | h
        · exact h.symm
        · exact absurd rfl (hkeysne (k, kws) h)
      subst hekws
      rw [if_pos hmatch]
      have hlk2 : lookupA k (updateA k (setInsert config) acc) = some (setInsert config s) :=
        lookupA_updateA_self k (setInsert config) acc s hlk
      have hpres := tagAll_lookup_preserved k nm config rest
        (updateA k (setInsert config) acc) hkeysne
      unfold tagAll at hpres
      refine ⟨setInsert config s, ?_, mem_setInsert_self config s⟩
      rw [hpres]
      exact hlk2
    · have hmem' : (k, kws) ∈ rest := by
        rcases List.mem_cons.mp hmem with h | h
        · exact absurd (by rw [← h]) hk
        · exact h
      have hstep : lookupA k
          (if countryMatch e.2 nm then updateA e.1 (setInsert config) acc else acc) = some s := by
        split
        · rw [lookupA_updateA_ne k e.1 hk _ acc]
          exact hlk
        · exact hlk
      have := ih (if countryMatch e.2 nm then updateA e.1 (setInsert config) acc else acc)
        s hmem' hnd' hmatch hstep
      unfold tagAll at this
      exact this

/-- Claim C7: when an accepted link's decoded label is usable, the
country-association loop inserts the link into EVERY country category whose
keyword list matches the label -- for each matching country key present in
the configuration, the link is a member of that country's set afterwards --
so classification never stops after the first matching country. -/
theorem c7_multi_country (countryKeys byCountry : List (Str × List Str))
    (config nm : Str) (k : Str) (kws : List Str) (s : List Str)
    (hname : resolvedName config = some nm) (hnm : nm.isEmpty = false)
    (hmem : (k, kws) ∈ countryKeys) (hnd : (countryKeys.map Prod.fst).Nodup)
    (hmatch : countryMatch kws (pyStrip nm) = true)
    (hlk : lookupA k byCountry = some s) :
    ∃ s', lookupA k (classifyConfig countryKeys byCountry config) = some s'
      ∧ config ∈ s' := by
  unfold classifyConfig
  rw [hname]
  simp only [hnm, Bool.false_eq_true, if_false]
  exact tagAll_mem k kws (pyStrip nm) config countryKeys byCountry s hmem hnd hmatch hlk

/-- Claim C7 witness: the multi-country theorem applied twice to the link
vless://abc#GermanyNode, whose label GermanyNode matches both CountryA (by
keyword Germany) and CountryB (by keyword Node): the link lands in both
country sets of the same classification call. -/
theorem c7_multi_country_witness :
    (∃ s, lookupA (toL "CountryA")
        (classifyConfig [(toL "CountryA", [toL "Germany"]), (toL "CountryB", [toL "Node"])]
          [(toL "CountryA", []), (toL "CountryB", [])] (toL "vless://abc#GermanyNode"))
        = some s ∧ toL "vless://abc#GermanyNode" ∈ s)
  ∧ (∃ s, lookupA (toL "CountryB")
        (classifyConfig [(toL "CountryA", [toL "Germany"]), (toL "CountryB", [toL "Node"])]
          [(toL "CountryA", []), (toL "CountryB", [])] (toL "vless://abc#GermanyNode"))
        = some s ∧ toL "vless://abc#GermanyNode" ∈ s) :=
  ⟨c7_multi_country
      [(toL "CountryA", [toL "Germany"]), (toL "CountryB", [toL "Node"])]
      [(toL "CountryA", []), (toL "CountryB", [])]
      (toL "vless://abc#GermanyNode") (toL "GermanyNode")
      (toL "CountryA") [toL "Germany"] []
      (by decide) (by decide) (by decide) (by decide) (by decide) (by decide),
   c7_multi_country
      [(toL "CountryA", [toL "Germany"]), (toL "CountryB", [toL "Node"])]
      [(toL "CountryA", []), (toL "CountryB", [])]
      (toL "vless://abc#GermanyNode") (toL "GermanyNode")
      (toL "CountryB") [toL "Node"] []
      (by decide) (by decide) (by decide) (by decide) (by decide) (by decide)⟩
